import Mathlib

/-!
Verification of the `arena` Go package (a chunked bump allocator).

This file gives a shallow embedding of the package's data model and
operations, translated from the Go sources (`arena.go` second revision,
`metrics.go`, `generic.go`), and proves properties of the embedded
definitions.

Modelling conventions:
* Go byte buffers (`[]byte`) are `List Nat` (each element one byte value);
  `make([]byte, size)` zero-fills, hence `List.replicate size 0`.
* Go `int` is embedded as `Int`; `uintptr` values (chunk offsets, lengths)
  are embedded as `Nat`.  The conversion `uintptr(n)` of a possibly
  negative `int` is `goUintptr` (reduction mod 2^64); where the Go code
  adds two `uintptr`s the model keeps the explicit `% 2 ^ 64`.
  Go slice lengths are below 2^63, so theorems carry that bound where the
  wrap-around would otherwise matter.
* A Go `panic` is an `Except.error` carrying the panic message; normal
  returns are `Except.ok`.
* The released state (`a.chunks == nil`) is `chunks = none`; a live chunk
  list (possibly empty) is `chunks = some cs`.
* The `[]byte` slice returned by `AllocBytes` aliases chunk storage, so it
  is modelled as a `Region` descriptor (chunk index, start offset, length);
  `readRegion` reads the bytes it denotes and `clearRegion` models Go's
  `clear(b)` writing zeros through it.
* The platform is 64-bit: `unsafe.Sizeof(uintptr(0)) = 8`, so the word
  alignment constant is 8.
-/

/-- One byte of storage; Go `byte` values are 0..255, the model only needs
that they are natural numbers. -/
abbrev Byte := Nat

/-- Translation of Go `chunk`: a backing buffer and the allocation offset
within it. -/
structure chunk where
  buf : List Byte
  offset : Nat
deriving DecidableEq, Repr

/-- Translation of Go `Arena`: the chunk list (`none` models a nil slice,
i.e. a released arena) and the configured chunk size. -/
structure Arena where
  chunks : Option (List chunk)
  chunkSize : Int
deriving DecidableEq, Repr

/-- Descriptor of a byte region returned by `AllocBytes`: which chunk it
lives in, the start offset inside that chunk's buffer, and its length.
This models the returned `[]byte` view `c.buf[start:end]`. -/
structure Region where
  chunkIdx : Nat
  start : Nat
  len : Nat
deriving DecidableEq, Repr

/-- Message of the Go panic raised by `panicIfReleased`. -/
def useAfterReleaseMsg : String := "arena: use after Release()"

/-- Message of the Go runtime panic raised by indexing a nil slice
(`&b[0]` with `b == nil`). -/
def indexOutOfRangeMsg : String := "runtime error: index out of range"

/-- Message of the Go runtime panic raised by a slicing expression
`c.buf[start:end]` with `end > len(c.buf)`. -/
def sliceBoundsMsg : String := "runtime error: slice bounds out of range"

/-- Translation of Go `DefaultChunkSize = 1 << 16` (64 KiB). -/
def DefaultChunkSize : Int := 65536

/-- Translation of Go `alignPtr(off) = (off + mask) & ^mask` with
`mask = 7` (64-bit platform).  Clearing the low three bits of `x` is
`x - x % 8`; the Go computation happens in `uintptr` arithmetic and agrees
with this for every offset a Go slice can reach (`off + 7 < 2^64`). -/
def alignPtr (off : Nat) : Nat := (off + 7) - (off + 7) % 8

/-- Conversion `uintptr(n)` of a Go `int`: reduction modulo 2^64
(negative values wrap to large unsigned values). -/
def goUintptr (n : Int) : Nat := (n % (2 : Int) ^ 64).toNat

/-- Default chunk value used by list lookups in the model; never actually
selected by the operations. -/
def chunk.default : chunk := { buf := [], offset := 0 }

/-- Last chunk of the list (the "current" chunk `a.chunks[len(a.chunks)-1]`
of the Go code). -/
def lastChunk (cs : List chunk) : chunk := cs.getD (cs.length - 1) chunk.default

/-- Translation of Go `(*Arena).grow(min)`: append one chunk of size
`max(a.chunkSize, min)` (`make([]byte, size)` zero-fills).  `append` on a
nil slice produces a non-nil slice, hence `Option.getD []`. -/
def Arena.grow (a : Arena) (min : Int) : Arena :=
  let size : Int := if min > a.chunkSize then min else a.chunkSize
  { a with chunks := some (a.chunks.getD [] ++ [{ buf := List.replicate size.toNat 0, offset := 0 }]) }

/-- Translation of Go `NewArena(chunkSize)`: resolve non-positive sizes to
`DefaultChunkSize`, then eagerly grow one chunk. -/
def NewArena (chunkSize : Int) : Arena :=
  let cs := if chunkSize ≤ 0 then DefaultChunkSize else chunkSize
  Arena.grow { chunks := none, chunkSize := cs } cs

/-- Translation of Go `(*Arena).AllocBytes(n)` (the revision without the
cached current-chunk pointer).  Control flow mirrors the source line by
line: early nil return for `n <= 0`, inlined `panicIfReleased`, growth of
an empty (non-nil) chunk list, the aligned-fit test on the last chunk in
`uintptr` arithmetic, growth on overflow, and the carve
`c.buf[start:end]` with `c.offset = end`.  The slicing expression carries
Go's runtime bounds check (`end ≤ len(c.buf)`, else panic); it can only
fire in wrap-around states that no realizable Go heap reaches. -/
def Arena.AllocBytes (a : Arena) (n : Int) : Except String (Arena × Option Region) :=
  if n ≤ 0 then .ok (a, none)
  else
    match a.chunks with
    | none => .error useAfterReleaseMsg
    | some cs0 =>
      let a1 := if cs0.length = 0 then a.grow n else a
      let cs := a1.chunks.getD []
      let ci := cs.length - 1
      let c := cs.getD ci chunk.default
      let off := alignPtr c.offset
      if (n.toNat + off) % 2 ^ 64 > c.buf.length then
        let a2 := a1.grow n
        let cs2 := a2.chunks.getD []
        let ci2 := cs2.length - 1
        let c2 := cs2.getD ci2 chunk.default
        let off2 := alignPtr c2.offset
        if off2 + n.toNat > c2.buf.length then .error sliceBoundsMsg
        else
          .ok ({ a2 with chunks := some (cs2.set ci2 { buf := c2.buf, offset := off2 + n.toNat }) },
               some { chunkIdx := ci2, start := off2, len := n.toNat })
      else
        if off + n.toNat > c.buf.length then .error sliceBoundsMsg
        else
          .ok ({ a1 with chunks := some (cs.set ci { buf := c.buf, offset := off + n.toNat }) },
               some { chunkIdx := ci, start := off, len := n.toNat })

/-- Translation of Go `(*Arena).EnsureCapacity(n)`: panic when released,
grow when the chunk list is empty or the last chunk lacks `n` aligned free
bytes. -/
def Arena.EnsureCapacity (a : Arena) (n : Int) : Except String Arena :=
  match a.chunks with
  | none => .error useAfterReleaseMsg
  | some cs =>
    if cs.length = 0 then .ok (a.grow n)
    else
      let c := cs.getD (cs.length - 1) chunk.default
      let off := alignPtr c.offset
      if (goUintptr n + off) % 2 ^ 64 > c.buf.length then .ok (a.grow n) else .ok a

/-- Translation of Go `(*Arena).Reset()`: panic when released, otherwise
zero every chunk's offset, keeping the buffers. -/
def Arena.Reset (a : Arena) : Except String Arena :=
  match a.chunks with
  | none => .error useAfterReleaseMsg
  | some cs => .ok { a with chunks := some (cs.map fun c => { buf := c.buf, offset := 0 }) }

/-- Translation of Go `(*Arena).Release()`: set the chunk list to nil.
Never fails. -/
def Arena.Release (a : Arena) : Arena :=
  { a with chunks := none }

/-- Translation of Go `(*Arena).SizeInUse()` from metrics.go: sum of chunk
offsets, 0 when released. -/
def Arena.SizeInUse (a : Arena) : Nat :=
  match a.chunks with
  | none => 0
  | some cs => cs.foldl (fun s c => s + c.offset) 0

/-- Translation of Go `(*Arena).NumChunks()`: chunk count, 0 when
released. -/
def Arena.NumChunks (a : Arena) : Nat :=
  match a.chunks with
  | none => 0
  | some cs => cs.length

/-- Translation of Go `(*Arena).Capacity()`: sum of chunk buffer lengths,
0 when released. -/
def Arena.Capacity (a : Arena) : Nat :=
  match a.chunks with
  | none => 0
  | some cs => cs.foldl (fun s c => s + c.buf.length) 0

/-- Translation of Go `(*Arena).Utilization()`.  The source divides in
`float64`; the model uses exact rationals, which agrees with the source on
the branch the claims exercise (`Capacity() == 0` returns the literal 0). -/
def Arena.Utilization (a : Arena) : Rat :=
  if a.Capacity = 0 then 0 else (a.SizeInUse : Rat) / (a.Capacity : Rat)

/-- Translation of Go `(*Arena).ChunkSize()`. -/
def Arena.ChunkSize (a : Arena) : Int := a.chunkSize

/-- Bytes visible through a region view, i.e. the contents of the Go slice
`c.buf[start : start+len]`. -/
def readRegion (a : Arena) (r : Region) : List Byte :=
  ((((a.chunks.getD []).getD r.chunkIdx chunk.default).buf.drop r.start).take r.len)

/-- Effect of Go `clear(b)` on a region view returned by `AllocBytes`:
overwrite the `len` bytes starting at `start` of the denoted chunk with
zeros.  Regions produced by `AllocBytes` are always in bounds of their
chunk's buffer. -/
def clearRegion (a : Arena) (r : Region) : Arena :=
  match a.chunks with
  | none => a
  | some cs =>
    let c := cs.getD r.chunkIdx chunk.default
    let buf := c.buf.take r.start ++ List.replicate r.len 0 ++ c.buf.drop (r.start + r.len)
    { a with chunks := some (cs.set r.chunkIdx { buf := buf, offset := c.offset }) }

/-- Translation of Go `Alloc[T](a)`.  The generic type parameter is
abstracted by its byte size `size = unsafe.Sizeof(zero)`.  The source
allocates `size` bytes, clears the returned slice when non-empty, and
takes `&b[0]` — which panics with an index-out-of-range runtime error when
`b` is the nil slice returned for `size = 0`. -/
def Alloc (a : Arena) (size : Nat) : Except String (Arena × Region) :=
  match a.AllocBytes (size : Int) with
  | .error e => .error e
  | .ok (_, none) => .error indexOutOfRangeMsg
  | .ok (a1, some r) =>
    let a2 := if r.len > 0 then clearRegion a1 r else a1
    .ok (a2, r)

/-- Translation of Go `AllocZeroed[T](a)`: identical to `Alloc`. -/
def AllocZeroed (a : Arena) (size : Nat) : Except String (Arena × Region) :=
  Alloc a size

/-- Translation of Go `AllocUninitialized[T](a)`: like `Alloc` but without
the clearing step; `&b[0]` panics on the nil slice likewise. -/
def AllocUninitialized (a : Arena) (size : Nat) : Except String (Arena × Region) :=
  match a.AllocBytes (size : Int) with
  | .error e => .error e
  | .ok (_, none) => .error indexOutOfRangeMsg
  | .ok (a1, some r) => .ok (a1, r)

/-- Arena resulting from a successful `AllocBytes` call (test-harness
convenience for stating concrete executions; panics keep the state). -/
def allocOk (a : Arena) (n : Int) : Arena :=
  match a.AllocBytes n with
  | .ok (a1, _) => a1
  | .error _ => a

/-- Arena resulting from a successful `Reset` call (test-harness
convenience for stating concrete executions). -/
def resetOk (a : Arena) : Arena :=
  match a.Reset with
  | .ok a1 => a1
  | .error _ => a

/-- States reachable from `NewArena` by successful `AllocBytes`,
`EnsureCapacity` and `Reset` calls (the pre-`Release` lifecycle).  The
2^62 bounds restrict size arguments to requests the Go runtime could
conceivably satisfy (a 4 EiB bound, far above any real heap); larger
requests end in the backing allocator's AllocationFailure, which the
model's unbounded memory cannot express. -/
inductive Reachable : Arena → Prop
  | new (chunkSize : Int) (h : chunkSize < 2 ^ 62) : Reachable (NewArena chunkSize)
  | alloc {a a' : Arena} {r : Option Region} (ha : Reachable a) (n : Int)
      (hn : n < 2 ^ 62) (h : a.AllocBytes n = .ok (a', r)) : Reachable a'
  | ensure {a a' : Arena} (ha : Reachable a) (n : Int)
      (hn : n < 2 ^ 62) (h : a.EnsureCapacity n = .ok a') : Reachable a'
  | reset {a a' : Arena} (ha : Reachable a) (h : a.Reset = .ok a') : Reachable a'

/-- Structural invariant maintained by the live lifecycle: the chunk list
is present and non-empty, every offset is within its buffer, buffer
lengths are realizable (below 2^62), and so is the configured chunk
size. -/
def ArenaInv (a : Arena) : Prop :=
  (∃ cs, a.chunks = some cs ∧ cs ≠ [] ∧
    ∀ c ∈ cs, c.offset ≤ c.buf.length ∧ c.buf.length < 2 ^ 62) ∧
  a.chunkSize < 2 ^ 62

/-! ### Arithmetic facts about the alignment function -/

lemma alignPtr_ge (x : Nat) : x ≤ alignPtr x := by
  unfold alignPtr; omega

lemma alignPtr_le (x : Nat) : alignPtr x ≤ x + 7 := by
  unfold alignPtr; omega

lemma alignPtr_mod (x : Nat) : alignPtr x % 8 = 0 := by
  unfold alignPtr; omega

lemma alignPtr_zero : alignPtr 0 = 0 := rfl

/-! ### List facts used to reason about the chunk sequence -/

lemma foldl_offset_map_zero (cs : List chunk) (s : Nat) :
    ((cs.map fun c => chunk.mk c.buf 0).foldl (fun s c => s + c.offset) s) = s := by
  induction cs generalizing s with
  | nil => rfl
  | cons c cs ih => simp only [List.map_cons, List.foldl_cons, Nat.add_zero]; exact ih s

lemma foldl_buflen_map_zero (cs : List chunk) (s : Nat) :
    ((cs.map fun c => chunk.mk c.buf 0).foldl (fun s c => s + c.buf.length) s) =
      cs.foldl (fun s c => s + c.buf.length) s := by
  induction cs generalizing s with
  | nil => rfl
  | cons c cs ih =>
    simp only [List.map_cons, List.foldl_cons]
    exact ih (s + c.buf.length)

lemma getD_set_self {α : Type} (cs : List α) (i : Nat) (x d : α) (h : i < cs.length) :
    (cs.set i x).getD i d = x := by
  induction cs generalizing i with
  | nil => simp at h
  | cons c cs ih =>
    cases i with
    | zero => rfl
    | succ j => simpa using ih j (by simpa using h)

lemma set_append_last {α : Type} (cs : List α) (x y : α) :
    (cs ++ [x]).set cs.length y = cs ++ [y] := by
  induction cs with
  | nil => rfl
  | cons c cs ih => simp [ih]

lemma getD_append_last {α : Type} (cs : List α) (x d : α) :
    (cs ++ [x]).getD cs.length d = x := by
  induction cs with
  | nil => rfl
  | cons c cs ih => simp [ih]

lemma lastChunk_cons (c : chunk) (cs : List chunk) (h : cs ≠ []) :
    lastChunk (c :: cs) = lastChunk cs := by
  unfold lastChunk
  have hpos : 0 < cs.length := List.length_pos.mpr h
  have hlen : (c :: cs).length - 1 = (cs.length - 1) + 1 := by
    simp only [List.length_cons]; omega
  rw [hlen, List.getD_cons_succ]

lemma lastChunk_mem (cs : List chunk) (h : cs ≠ []) : lastChunk cs ∈ cs := by
  induction cs with
  | nil => exact absurd rfl h
  | cons c cs ih =>
    by_cases hcs : cs = []
    · subst hcs; simp [lastChunk]
    · rw [lastChunk_cons c cs hcs]
      exact List.mem_cons_of_mem c (ih hcs)

/-! ### Characterizations of `AllocBytes` on a live arena -/

/-- Fit path of `AllocBytes`: when `n` aligned bytes fit in the last
chunk, the carve happens there and no chunk is appended. -/
lemma allocBytes_eq_fit (a : Arena) (cs : List chunk) (hcs : a.chunks = some cs)
    (hne : cs ≠ []) (n : Int) (hpos : 0 < n)
    (hlen : (lastChunk cs).buf.length < 2 ^ 63)
    (hfit : n.toNat + alignPtr (lastChunk cs).offset ≤ (lastChunk cs).buf.length) :
    a.AllocBytes n =
      .ok ({ a with chunks := some (cs.set (cs.length - 1)
              { buf := (lastChunk cs).buf,
                offset := alignPtr (lastChunk cs).offset + n.toNat }) },
           some { chunkIdx := cs.length - 1,
                  start := alignPtr (lastChunk cs).offset, len := n.toNat }) := by
  have hnle : ¬ n ≤ 0 := by omega
  have hlen0 : ¬ cs.length = 0 := by simpa [List.length_eq_zero] using hne
  unfold lastChunk at hfit hlen ⊢
  have hmod : (n.toNat + alignPtr (cs.getD (cs.length - 1) chunk.default).offset) % 2 ^ 64 =
      n.toNat + alignPtr (cs.getD (cs.length - 1) chunk.default).offset :=
    Nat.mod_eq_of_lt (by omega)
  simp only [Arena.AllocBytes, hcs, if_neg hnle, if_neg hlen0, Option.getD_some]
  rw [hmod, if_neg (not_lt.mpr hfit), if_neg (not_lt.mpr (by omega))]

/-- Growth path of `AllocBytes`: when `n` aligned bytes do not fit in the
last chunk, exactly one chunk of size `max(chunkSize, n)` is appended and
the carve happens at offset 0 of the new chunk. -/
lemma allocBytes_eq_grow (a : Arena) (cs : List chunk) (hcs : a.chunks = some cs)
    (hne : cs ≠ []) (n : Int) (hpos : 0 < n) (hsmall : n < 2 ^ 62)
    (hoff : (lastChunk cs).offset ≤ (lastChunk cs).buf.length)
    (hlen : (lastChunk cs).buf.length < 2 ^ 62)
    (hnofit : (lastChunk cs).buf.length < n.toNat + alignPtr (lastChunk cs).offset) :
    a.AllocBytes n =
      .ok ({ a with chunks := some (cs ++
              [{ buf := List.replicate (if n > a.chunkSize then n else a.chunkSize).toNat 0,
                 offset := n.toNat }]) },
           some { chunkIdx := cs.length, start := 0, len := n.toNat }) := by
  have hnle : ¬ n ≤ 0 := by omega
  have hlen0 : ¬ cs.length = 0 := by simpa [List.length_eq_zero] using hne
  unfold lastChunk at hnofit hoff hlen
  have halign := alignPtr_le (cs.getD (cs.length - 1) chunk.default).offset
  have hmod : (n.toNat + alignPtr (cs.getD (cs.length - 1) chunk.default).offset) % 2 ^ 64 =
      n.toNat + alignPtr (cs.getD (cs.length - 1) chunk.default).offset :=
    Nat.mod_eq_of_lt (by omega)
  have hsz : n.toNat ≤ (if n > a.chunkSize then n else a.chunkSize).toNat := by
    split <;> omega
  simp only [Arena.AllocBytes, Arena.grow, hcs, if_neg hnle, if_neg hlen0, Option.getD_some]
  rw [hmod, if_pos hnofit]
  simp only [List.length_append, List.length_cons, List.length_nil, Nat.add_sub_cancel,
    Nat.zero_add, getD_append_last, alignPtr_zero, set_append_last, List.length_replicate]
  rw [if_neg (not_lt.mpr hsz)]

lemma getD_map_chunk (cs : List chunk) (i : Nat) (h : i < cs.length) (f : chunk → chunk)
    (d : chunk) : (cs.map f).getD i d = f (cs.getD i d) := by
  induction cs generalizing i with
  | nil => simp at h
  | cons c cs ih =>
    cases i with
    | zero => rfl
    | succ j =>
      simp only [List.map_cons, List.getD_cons_succ]
      exact ih j (by simpa using h)

lemma lastChunk_append (cs : List chunk) (x : chunk) : lastChunk (cs ++ [x]) = x := by
  unfold lastChunk
  simp only [List.length_append, List.length_cons, List.length_nil, Nat.zero_add,
    Nat.add_sub_cancel]
  exact getD_append_last cs x chunk.default

lemma lastChunk_map (cs : List chunk) (h : cs ≠ []) (f : chunk → chunk) :
    lastChunk (cs.map f) = f (lastChunk cs) := by
  unfold lastChunk
  rw [List.length_map]
  exact getD_map_chunk cs (cs.length - 1) (by have := List.length_pos.mpr h; omega) f chunk.default

/-! ### Behavior of the operations on a released arena -/

lemma allocBytes_released (a : Arena) (h : a.chunks = none) (n : Int) (hn : 0 < n) :
    a.AllocBytes n = .error useAfterReleaseMsg := by
  simp only [Arena.AllocBytes, h, if_neg (by omega : ¬ n ≤ 0)]

lemma allocBytes_nonpos (a : Arena) (n : Int) (hn : n ≤ 0) :
    a.AllocBytes n = .ok (a, none) := by
  simp only [Arena.AllocBytes, if_pos hn]

lemma reset_released (a : Arena) (h : a.chunks = none) :
    a.Reset = .error useAfterReleaseMsg := by
  simp only [Arena.Reset, h]

lemma ensureCapacity_released (a : Arena) (h : a.chunks = none) (n : Int) :
    a.EnsureCapacity n = .error useAfterReleaseMsg := by
  simp only [Arena.EnsureCapacity, h]

lemma release_chunks (a : Arena) : a.Release.chunks = none := rfl

/-- Successful `EnsureCapacity` either leaves the arena unchanged or grows
one chunk. -/
lemma ensureCapacity_result (a : Arena) (n : Int) (a' : Arena)
    (h : a.EnsureCapacity n = .ok a') : a' = a ∨ a' = a.grow n := by
  unfold Arena.EnsureCapacity at h
  split at h
  · cases h
  · split at h
    · simp only [Except.ok.injEq] at h
      exact Or.inr h.symm
    · dsimp only at h
      split at h
      · simp only [Except.ok.injEq] at h
        exact Or.inr h.symm
      · simp only [Except.ok.injEq] at h
        exact Or.inl h.symm

/-- Reading a region straight after clearing it yields zeros, provided the
region's start offset is within the chunk's buffer. -/
lemma readRegion_clearRegion (a1 : Arena) (cs1 : List chunk) (h : a1.chunks = some cs1)
    (r : Region) (hidx : r.chunkIdx < cs1.length)
    (hstart : r.start ≤ (cs1.getD r.chunkIdx chunk.default).buf.length) :
    readRegion (clearRegion a1 r) r = List.replicate r.len 0 := by
  simp only [readRegion, clearRegion, h, Option.getD_some]
  rw [getD_set_self _ _ _ _ hidx]
  set c := cs1.getD r.chunkIdx chunk.default with hc
  have hlen : (c.buf.take r.start).length = r.start := by
    rw [List.length_take]; omega
  have hdrop := List.drop_left (c.buf.take r.start)
    (List.replicate r.len 0 ++ c.buf.drop (r.start + r.len))
  rw [hlen] at hdrop
  have htake := List.take_left (List.replicate r.len (0 : Byte)) (c.buf.drop (r.start + r.len))
  rw [List.length_replicate] at htake
  rw [List.append_assoc, hdrop, htake]

/-! ### Preservation of the structural invariant -/

lemma newArena_chunks (c : Int) :
    (NewArena c).chunks =
      some [{ buf := List.replicate (if c ≤ 0 then DefaultChunkSize else c).toNat 0,
              offset := 0 }] := by
  simp only [NewArena, Arena.grow, Option.getD_none, List.nil_append]
  rw [if_neg (lt_irrefl _)]

lemma newArena_chunkSize (c : Int) :
    (NewArena c).chunkSize = if c ≤ 0 then DefaultChunkSize else c := rfl

lemma grow_chunks_some (a : Arena) (cs : List chunk) (hcs : a.chunks = some cs) (n : Int) :
    (a.grow n).chunks = some (cs ++
      [{ buf := List.replicate (if n > a.chunkSize then n else a.chunkSize).toNat 0,
         offset := 0 }]) := by
  simp only [Arena.grow, hcs, Option.getD_some]

lemma arenaInv_new (c : Int) (h : c < 2 ^ 62) : ArenaInv (NewArena c) := by
  constructor
  · refine ⟨_, newArena_chunks c, by simp, ?_⟩
    intro ch hch
    rw [List.mem_singleton] at hch
    subst hch
    refine ⟨Nat.zero_le _, ?_⟩
    rw [List.length_replicate]
    unfold DefaultChunkSize
    split <;> omega
  · rw [newArena_chunkSize]
    unfold DefaultChunkSize
    split <;> omega

lemma arenaInv_grow (a : Arena) (hinv : ArenaInv a) (n : Int) (hn : n < 2 ^ 62) :
    ArenaInv (a.grow n) := by
  obtain ⟨⟨cs, hcs, hne, hwf⟩, hcz⟩ := hinv
  refine ⟨⟨_, grow_chunks_some a cs hcs n, by simp, ?_⟩, hcz⟩
  intro c hc
  rw [List.mem_append, List.mem_singleton] at hc
  rcases hc with hmem | heq
  · exact hwf c hmem
  · subst heq
    refine ⟨Nat.zero_le _, ?_⟩
    rw [List.length_replicate]
    split <;> omega

lemma arenaInv_alloc (a a' : Arena) (r : Option Region) (hinv : ArenaInv a) (n : Int)
    (hn : n < 2 ^ 62) (h : a.AllocBytes n = .ok (a', r)) : ArenaInv a' := by
  obtain ⟨⟨cs, hcs, hne, hwf⟩, hcz⟩ := hinv
  by_cases hpos : n ≤ 0
  · rw [allocBytes_nonpos a n hpos] at h
    simp only [Except.ok.injEq, Prod.mk.injEq] at h
    obtain ⟨h1, -⟩ := h
    subst h1
    exact ⟨⟨cs, hcs, hne, hwf⟩, hcz⟩
  · push_neg at hpos
    obtain ⟨hoff, hlen⟩ := hwf _ (lastChunk_mem cs hne)
    by_cases hfit : n.toNat + alignPtr (lastChunk cs).offset ≤ (lastChunk cs).buf.length
    · rw [allocBytes_eq_fit a cs hcs hne n hpos (by omega) hfit] at h
      simp only [Except.ok.injEq, Prod.mk.injEq] at h
      obtain ⟨h1, -⟩ := h
      subst h1
      refine ⟨⟨_, rfl, ?_, ?_⟩, hcz⟩
      · intro hemp
        have := congrArg List.length hemp
        rw [List.length_set] at this
        exact hne (List.length_eq_zero.mp this)
      · intro c hc
        rcases List.mem_or_eq_of_mem_set hc with hmem | heq
        · exact hwf c hmem
        · subst heq
          refine ⟨?_, ?_⟩ <;> dsimp only
          · omega
          · exact hlen
    · push_neg at hfit
      rw [allocBytes_eq_grow a cs hcs hne n hpos hn hoff hlen hfit] at h
      simp only [Except.ok.injEq, Prod.mk.injEq] at h
      obtain ⟨h1, -⟩ := h
      subst h1
      refine ⟨⟨_, rfl, by simp, ?_⟩, hcz⟩
      intro c hc
      rw [List.mem_append, List.mem_singleton] at hc
      rcases hc with hmem | heq
      · exact hwf c hmem
      · subst heq
        constructor
        · dsimp only
          rw [List.length_replicate]
          split <;> omega
        · dsimp only
          rw [List.length_replicate]
          split <;> omega

lemma arenaInv_reset (a a' : Arena) (hinv : ArenaInv a) (h : a.Reset = .ok a') :
    ArenaInv a' := by
  obtain ⟨⟨cs, hcs, hne, hwf⟩, hcz⟩ := hinv
  simp only [Arena.Reset, hcs, Except.ok.injEq] at h
  subst h
  refine ⟨⟨_, rfl, by simpa using hne, ?_⟩, hcz⟩
  intro c hc
  rw [List.mem_map] at hc
  obtain ⟨c0, hc0, rfl⟩ := hc
  exact ⟨Nat.zero_le _, (hwf c0 hc0).2⟩

/-- Every reachable live state satisfies the structural invariant. -/
theorem reachable_arenaInv (a : Arena) (h : Reachable a) : ArenaInv a := by
  induction h with
  | new c hc => exact arenaInv_new c hc
  | alloc ha n hn h ih => exact arenaInv_alloc _ _ _ ih n hn h
  | ensure ha n hn h ih =>
    rcases ensureCapacity_result _ _ _ h with h1 | h1 <;> subst h1
    · exact ih
    · exact arenaInv_grow _ ih n hn
  | reset ha h ih => exact arenaInv_reset _ _ ih h

/-! ### Claim theorems -/

/-- C5: `NewArena(chunkSize)` with `chunkSize ≤ 0` yields `ChunkSize() = 65536`
(the documented default), and every `NewArena` call eagerly allocates exactly
one initial chunk, so `NumChunks() = 1` immediately after construction. -/
theorem newArena_default_and_eager_chunk :
    (∀ c : Int, c ≤ 0 → (NewArena c).ChunkSize = 65536) ∧
    (∀ c : Int, (NewArena c).NumChunks = 1) := by
  constructor
  · intro c hc
    show (NewArena c).chunkSize = 65536
    rw [newArena_chunkSize, if_pos hc]
    rfl
  · intro c
    simp only [Arena.NumChunks, newArena_chunks c, List.length_cons, List.length_nil]

/-- Witness for C5 at the concrete inputs `-3` and `0`. -/
theorem newArena_default_and_eager_chunk_witness :
    (NewArena (-3)).ChunkSize = 65536 ∧ (NewArena (-3)).NumChunks = 1 :=
  ⟨newArena_default_and_eager_chunk.1 (-3) (by decide),
   newArena_default_and_eager_chunk.2 (-3)⟩

/-- C6: after `Release()`, the metrics accessors report `SizeInUse() = 0`,
`NumChunks() = 0`, `Capacity() = 0` and `Utilization() = 0`. -/
theorem released_metrics_zero (a : Arena) :
    a.Release.SizeInUse = 0 ∧ a.Release.NumChunks = 0 ∧ a.Release.Capacity = 0 ∧
      a.Release.Utilization = 0 :=
  ⟨rfl, rfl, rfl, rfl⟩

/-- C7: `Reset()` on a non-released arena succeeds, zeroes `SizeInUse()`,
and leaves `NumChunks()` and `Capacity()` exactly as they were before. -/
theorem reset_frame (a : Arena) (cs : List chunk) (hcs : a.chunks = some cs) :
    ∃ a2, a.Reset = .ok a2 ∧ a2.SizeInUse = 0 ∧ a2.NumChunks = a.NumChunks ∧
      a2.Capacity = a.Capacity := by
  refine ⟨{ a with chunks := some (cs.map fun c => { buf := c.buf, offset := 0 }) },
    by simp only [Arena.Reset, hcs], ?_, ?_, ?_⟩
  · exact foldl_offset_map_zero cs 0
  · simp only [Arena.NumChunks, hcs, List.length_map]
  · simp only [Arena.Capacity, hcs]
    exact foldl_buflen_map_zero cs 0

/-- Witness for C7 on a freshly built arena with one allocation. -/
theorem reset_frame_witness :
    ∃ a2, (NewArena 8).Reset = .ok a2 ∧ a2.SizeInUse = 0 ∧
      a2.NumChunks = (NewArena 8).NumChunks ∧ a2.Capacity = (NewArena 8).Capacity :=
  reset_frame (NewArena 8) [{ buf := List.replicate 8 0, offset := 0 }] rfl

/-- C2 (amended): after `Release()`, `AllocBytes(n)` with `n > 0`, `Reset()`
and `EnsureCapacity(n)` all fail with the use-after-release panic, and a
second `Release()` performs no action and does not fail; however
`AllocBytes(n)` with `n ≤ 0` returns the nil result without failing,
because the `n ≤ 0` early return precedes the release check. -/
theorem release_terminal (a : Arena) :
    (∀ n : Int, 0 < n → a.Release.AllocBytes n = .error useAfterReleaseMsg) ∧
    (∀ n : Int, n ≤ 0 → a.Release.AllocBytes n = .ok (a.Release, none)) ∧
    a.Release.Reset = .error useAfterReleaseMsg ∧
    (∀ n : Int, a.Release.EnsureCapacity n = .error useAfterReleaseMsg) ∧
    a.Release.Release = a.Release :=
  ⟨fun n hn => allocBytes_released _ rfl n hn,
   fun n hn => allocBytes_nonpos _ n hn,
   reset_released _ rfl,
   fun n => ensureCapacity_released _ rfl n,
   rfl⟩

/-- Witness for C2 at a concrete released arena. -/
theorem release_terminal_witness :
    (NewArena 8).Release.AllocBytes 3 = .error useAfterReleaseMsg ∧
    (NewArena 8).Release.AllocBytes 0 = .ok ((NewArena 8).Release, none) :=
  ⟨(release_terminal (NewArena 8)).1 3 (by decide),
   (release_terminal (NewArena 8)).2.1 0 (by decide)⟩

/-- C2 counterexample to the claim as stated: after `Release()`, the call
`AllocBytes(0)` does not fail with UseAfterRelease — the `n ≤ 0` early
return fires before `panicIfReleased`, so it returns the nil result. -/
theorem release_allocBytes_zero_cex :
    (NewArena 8).Release.AllocBytes 0 = .ok ((NewArena 8).Release, none) ∧
    (NewArena 8).Release.AllocBytes 0 ≠ .error useAfterReleaseMsg := by
  constructor
  · rfl
  · intro h
    rw [show (NewArena 8).Release.AllocBytes 0 =
        .ok ((NewArena 8).Release, none) from rfl] at h
    exact Except.noConfusion h

/-- C10: for a zero-sized type (`sizeof(T) = 0`), `Alloc`, `AllocZeroed` and
`AllocUninitialized` all panic: `AllocBytes(0)` returns the nil slice and
taking `&b[0]` fails with an index-out-of-range runtime error, so no valid
reference is ever returned. -/
theorem zero_sized_alloc_panics (a : Arena) :
    Alloc a 0 = .error indexOutOfRangeMsg ∧
    AllocZeroed a 0 = .error indexOutOfRangeMsg ∧
    AllocUninitialized a 0 = .error indexOutOfRangeMsg :=
  ⟨rfl, rfl, rfl⟩

/-- C8: every state reachable from `NewArena` through `AllocBytes`,
`EnsureCapacity` and `Reset` has a non-empty chunk sequence in which every
chunk satisfies `offset ≤ len(buffer)`; after `Release()` the chunk
sequence is empty (nil, `NumChunks() = 0`) and the arena is terminal:
mutating operations fail and `Release` is idempotent. -/
theorem lifecycle_invariant_and_terminal_release :
    (∀ a : Arena, Reachable a →
      ∃ cs, a.chunks = some cs ∧ cs ≠ [] ∧ ∀ c ∈ cs, c.offset ≤ c.buf.length) ∧
    (∀ a : Arena, a.Release.chunks = none ∧ a.Release.NumChunks = 0 ∧
      (∀ n : Int, 0 < n → a.Release.AllocBytes n = .error useAfterReleaseMsg) ∧
      a.Release.Reset = .error useAfterReleaseMsg ∧
      (∀ n : Int, a.Release.EnsureCapacity n = .error useAfterReleaseMsg) ∧
      a.Release.Release = a.Release) := by
  constructor
  · intro a ha
    obtain ⟨⟨cs, hcs, hne, hwf⟩, -⟩ := reachable_arenaInv a ha
    exact ⟨cs, hcs, hne, fun c hc => (hwf c hc).1⟩
  · intro a
    exact ⟨rfl, rfl, fun n hn => allocBytes_released _ rfl n hn, reset_released _ rfl,
           fun n => ensureCapacity_released _ rfl n, rfl⟩

/-- Witness for C8 at a concrete reachable state (a fresh arena after one
allocation). -/
theorem lifecycle_invariant_witness :
    ∃ cs, (allocOk (NewArena 8) 4).chunks = some cs ∧ cs ≠ [] ∧
      ∀ c ∈ cs, c.offset ≤ c.buf.length :=
  lifecycle_invariant_and_terminal_release.1 (allocOk (NewArena 8) 4)
    (Reachable.alloc (Reachable.new 8 (by decide)) 4 (by decide) rfl)

/-- C1: on a non-released arena, `AllocBytes(n)` with `n > 0` succeeds and
returns a region of exactly `n` bytes whose starting offset within its
chunk is a multiple of the platform word size (8). -/
theorem allocBytes_exact_len_word_aligned (a : Arena) (cs : List chunk)
    (hcs : a.chunks = some cs) (hne : cs ≠ [])
    (hwf : ∀ c ∈ cs, c.offset ≤ c.buf.length ∧ c.buf.length < 2 ^ 62)
    (n : Int) (hpos : 0 < n) (hn : n < 2 ^ 62) :
    ∃ a' r, a.AllocBytes n = .ok (a', some r) ∧ r.len = n.toNat ∧ r.start % 8 = 0 ∧
      (readRegion a' r).length = n.toNat := by
  obtain ⟨hoff, hlen⟩ := hwf _ (lastChunk_mem cs hne)
  by_cases hfit : n.toNat + alignPtr (lastChunk cs).offset ≤ (lastChunk cs).buf.length
  · refine ⟨_, _, allocBytes_eq_fit a cs hcs hne n hpos (by omega) hfit, rfl,
      alignPtr_mod _, ?_⟩
    simp only [readRegion, Option.getD_some]
    rw [getD_set_self _ _ _ _ (by have := List.length_pos.mpr hne; omega)]
    simp only [List.length_take, List.length_drop]
    omega
  · push_neg at hfit
    refine ⟨_, _, allocBytes_eq_grow a cs hcs hne n hpos hn hoff hlen hfit, rfl, ?_, ?_⟩
    · show (0 : Nat) % 8 = 0
      rfl
    · simp only [readRegion, Option.getD_some]
      rw [getD_append_last]
      simp only [List.drop_zero, List.length_take, List.length_replicate]
      split <;> omega

/-- Witness for C1: allocating 5 bytes from a fresh 8-byte arena. -/
theorem allocBytes_exact_len_word_aligned_witness :
    ∃ a' r, (NewArena 8).AllocBytes 5 = .ok (a', some r) ∧ r.len = (5 : Int).toNat ∧
      r.start % 8 = 0 ∧ (readRegion a' r).length = (5 : Int).toNat :=
  allocBytes_exact_len_word_aligned (NewArena 8)
    [{ buf := List.replicate 8 0, offset := 0 }] rfl (by decide) (by decide)
    5 (by decide) (by decide)

/-- C3 (amended): whenever an allocation of `n > 0` bytes does not fit in
the current (last) chunk, the arena appends exactly one new chunk of size
`max(configuredChunkSize, n)` — in particular of capacity at least `n` —
and the allocation succeeds with exactly `n` bytes carved from it. -/
theorem grow_sizing_policy (a : Arena) (cs : List chunk) (hcs : a.chunks = some cs)
    (hne : cs ≠ []) (n : Int) (hpos : 0 < n) (hn : n < 2 ^ 62)
    (hoff : (lastChunk cs).offset ≤ (lastChunk cs).buf.length)
    (hlen : (lastChunk cs).buf.length < 2 ^ 62)
    (hnofit : (lastChunk cs).buf.length < n.toNat + alignPtr (lastChunk cs).offset) :
    ∃ a' r cs', a.AllocBytes n = .ok (a', some r) ∧ r.len = n.toNat ∧
      a'.chunks = some cs' ∧ a'.NumChunks = a.NumChunks + 1 ∧
      (lastChunk cs').buf.length = (max a.chunkSize n).toNat ∧
      n.toNat ≤ (lastChunk cs').buf.length := by
  refine ⟨_, _, _, allocBytes_eq_grow a cs hcs hne n hpos hn hoff hlen hnofit,
    rfl, rfl, ?_, ?_, ?_⟩
  · simp only [Arena.NumChunks, hcs, List.length_append, List.length_cons, List.length_nil]
  · rw [lastChunk_append]
    dsimp only
    rw [List.length_replicate, max_def]
    split
    · split <;> omega
    · split <;> omega
  · rw [lastChunk_append]
    dsimp only
    rw [List.length_replicate]
    split <;> omega

/-- Witness for C3: requesting 24 bytes from a fresh 8-byte arena grows a
new 24-byte chunk. -/
theorem grow_sizing_policy_witness :
    ∃ a' r cs', (NewArena 8).AllocBytes 24 = .ok (a', some r) ∧ r.len = (24 : Int).toNat ∧
      a'.chunks = some cs' ∧ a'.NumChunks = (NewArena 8).NumChunks + 1 ∧
      (lastChunk cs').buf.length = (max (NewArena 8).chunkSize 24).toNat ∧
      (24 : Int).toNat ≤ (lastChunk cs').buf.length :=
  grow_sizing_policy (NewArena 8) [{ buf := List.replicate 8 0, offset := 0 }] rfl
    (by decide) 24 (by decide) (by decide) (by decide) (by decide) (by decide)

/-- C3 counterexample to the "hence" part of the claim as stated: a request
larger than the configured chunk size need not create a new chunk.  With
`NewArena(8)`, allocating 24 bytes grows a 24-byte chunk; after `Reset()`,
allocating 16 bytes (16 > configured 8) fits in the retained 24-byte chunk,
so the allocation succeeds with no new chunk appended. -/
theorem grow_sizing_policy_cex :
    (resetOk (allocOk (NewArena 8) 24)).ChunkSize = 8 ∧
    (resetOk (allocOk (NewArena 8) 24)).AllocBytes 16 =
      .ok (allocOk (resetOk (allocOk (NewArena 8) 24)) 16,
           some { chunkIdx := 1, start := 0, len := 16 }) ∧
    (allocOk (resetOk (allocOk (NewArena 8) 24)) 16).NumChunks =
      (resetOk (allocOk (NewArena 8) 24)).NumChunks :=
  ⟨rfl, rfl, rfl⟩

/-- C4 (amended): immediately after `Reset()` on a non-released arena, an
`AllocBytes(n)` with `0 < n ≤ len(last chunk's buffer)` succeeds without
growing: `NumChunks` is unchanged by that allocation. -/
theorem reset_then_alloc_no_grow (a : Arena) (cs : List chunk) (hcs : a.chunks = some cs)
    (hne : cs ≠ []) (a2 : Arena) (hreset : a.Reset = .ok a2)
    (n : Int) (hpos : 0 < n) (hn : n.toNat ≤ (lastChunk cs).buf.length)
    (hlen : (lastChunk cs).buf.length < 2 ^ 62) :
    ∃ a3 r, a2.AllocBytes n = .ok (a3, some r) ∧ r.len = n.toNat ∧
      a3.NumChunks = a2.NumChunks := by
  simp only [Arena.Reset, hcs, Except.ok.injEq] at hreset
  subst hreset
  have hne2 : cs.map (fun c => ({ buf := c.buf, offset := 0 } : chunk)) ≠ [] := by
    simpa using hne
  have hlast : lastChunk (cs.map fun c => ({ buf := c.buf, offset := 0 } : chunk)) =
      { buf := (lastChunk cs).buf, offset := 0 } := lastChunk_map cs hne _
  have hfit : n.toNat +
      alignPtr (lastChunk (cs.map fun c => ({ buf := c.buf, offset := 0 } : chunk))).offset ≤
      (lastChunk (cs.map fun c => ({ buf := c.buf, offset := 0 } : chunk))).buf.length := by
    rw [hlast]
    dsimp only
    rw [alignPtr_zero]
    omega
  have hlen2 : (lastChunk (cs.map fun c =>
      ({ buf := c.buf, offset := 0 } : chunk))).buf.length < 2 ^ 63 := by
    rw [hlast]
    dsimp only
    omega
  refine ⟨_, _, allocBytes_eq_fit _ (cs.map fun c => ({ buf := c.buf, offset := 0 } : chunk))
    rfl hne2 n hpos hlen2 hfit, rfl, ?_⟩
  simp only [Arena.NumChunks, List.length_set]

/-- Witness for C4: resetting a fresh 8-byte arena and allocating 4 bytes
keeps the chunk count. -/
theorem reset_then_alloc_no_grow_witness :
    ∃ a3 r, (resetOk (NewArena 8)).AllocBytes 4 = .ok (a3, some r) ∧
      r.len = (4 : Int).toNat ∧ a3.NumChunks = (resetOk (NewArena 8)).NumChunks :=
  reset_then_alloc_no_grow (NewArena 8) [{ buf := List.replicate 8 0, offset := 0 }] rfl
    (by decide) (resetOk (NewArena 8)) rfl 4 (by decide) (by decide) (by decide)

/-- C4 counterexample to the claim as stated: with `NewArena(8)`, allocating
24 bytes gives chunks of sizes 8 and 24 (`Capacity() = 32`, `NumChunks() = 2`).
After `Reset()`, requesting `n = 32 ≤ 32 =` prior `Capacity()` does not fit
the 24-byte last chunk, so the arena grows: `NumChunks()` becomes 3. -/
theorem reset_then_alloc_no_grow_cex :
    (allocOk (NewArena 8) 24).Capacity = 32 ∧
    (resetOk (allocOk (NewArena 8) 24)).NumChunks = 2 ∧
    (resetOk (allocOk (NewArena 8) 24)).AllocBytes 32 =
      .ok (allocOk (resetOk (allocOk (NewArena 8) 24)) 32,
           some { chunkIdx := 2, start := 0, len := 32 }) ∧
    (allocOk (resetOk (allocOk (NewArena 8) 24)) 32).NumChunks = 3 :=
  ⟨rfl, rfl, rfl, rfl⟩

/-- Success of `Alloc` given a successful in-bounds raw allocation: the
clearing step runs and the returned region reads back as all zeros. -/
lemma alloc_of_allocBytes (a : Arena) (size : Nat) (hpos : 0 < size) (a1 : Arena)
    (r : Region) (h : a.AllocBytes (size : Int) = .ok (a1, some r)) (hlen : r.len = size)
    (cs1 : List chunk) (hcs1 : a1.chunks = some cs1) (hidx : r.chunkIdx < cs1.length)
    (hstart : r.start ≤ (cs1.getD r.chunkIdx chunk.default).buf.length) :
    Alloc a size = .ok (clearRegion a1 r, r) ∧
      readRegion (clearRegion a1 r) r = List.replicate size 0 := by
  constructor
  · simp only [Alloc, h]
    rw [if_pos (by omega : r.len > 0)]
  · rw [readRegion_clearRegion a1 cs1 hcs1 r hidx hstart, hlen]

/-- Successful positive `AllocBytes` yields a region that lies entirely
within the buffer of the chunk it names. -/
lemma allocBytes_region_in_bounds (a : Arena) (cs : List chunk) (hcs : a.chunks = some cs)
    (hne : cs ≠ []) (hwf : ∀ c ∈ cs, c.offset ≤ c.buf.length ∧ c.buf.length < 2 ^ 62)
    (n : Int) (hpos : 0 < n) (hn : n < 2 ^ 62) :
    ∃ a1 cs1 r, a.AllocBytes n = .ok (a1, some r) ∧ a1.chunks = some cs1 ∧
      r.len = n.toNat ∧ r.chunkIdx < cs1.length ∧
      r.start + r.len ≤ (cs1.getD r.chunkIdx chunk.default).buf.length := by
  obtain ⟨hoff, hlen⟩ := hwf _ (lastChunk_mem cs hne)
  by_cases hfit : n.toNat + alignPtr (lastChunk cs).offset ≤ (lastChunk cs).buf.length
  · refine ⟨_, _, _, allocBytes_eq_fit a cs hcs hne n hpos (by omega) hfit, rfl, rfl, ?_, ?_⟩
    · dsimp only
      rw [List.length_set]
      have := List.length_pos.mpr hne
      omega
    · dsimp only
      rw [getD_set_self _ _ _ _ (by have := List.length_pos.mpr hne; omega)]
      dsimp only
      omega
  · push_neg at hfit
    refine ⟨_, _, _, allocBytes_eq_grow a cs hcs hne n hpos hn hoff hlen hfit, rfl, rfl, ?_, ?_⟩
    · dsimp only
      simp only [List.length_append, List.length_cons, List.length_nil]
      omega
    · dsimp only
      rw [getD_append_last]
      dsimp only
      rw [List.length_replicate]
      split <;> omega

/-- C9 (amended): for every type of positive size, `Alloc` on a non-released
arena succeeds and returns a region of `sizeof(T)` bytes in which every
byte reads as zero immediately after the call. -/
theorem alloc_zero_filled (a : Arena) (cs : List chunk) (hcs : a.chunks = some cs)
    (hne : cs ≠ []) (hwf : ∀ c ∈ cs, c.offset ≤ c.buf.length ∧ c.buf.length < 2 ^ 62)
    (size : Nat) (hpos : 0 < size) (hsize : size < 2 ^ 62) :
    ∃ a' r, Alloc a size = .ok (a', r) ∧ r.len = size ∧
      readRegion a' r = List.replicate size 0 := by
  obtain ⟨a1, cs1, r, h, hcs1, hlenr, hidx, hbound⟩ :=
    allocBytes_region_in_bounds a cs hcs hne hwf (size : Int) (by omega) (by omega)
  have hlenr2 : r.len = size := by omega
  obtain ⟨h1, h2⟩ := alloc_of_allocBytes a size hpos a1 r h hlenr2 cs1 hcs1 hidx (by omega)
  exact ⟨_, _, h1, hlenr2, h2⟩

/-- Witness for C9: allocating a 5-byte value from a fresh 8-byte arena
yields five zero bytes. -/
theorem alloc_zero_filled_witness :
    ∃ a' r, Alloc (NewArena 8) 5 = .ok (a', r) ∧ r.len = 5 ∧
      readRegion a' r = List.replicate 5 0 :=
  alloc_zero_filled (NewArena 8) [{ buf := List.replicate 8 0, offset := 0 }] rfl
    (by decide) (by decide) 5 (by decide) (by decide)

/-- C9 counterexample to the claim as stated ("for every type T"): for a
zero-sized type, `Alloc` panics with an index-out-of-range runtime error
instead of returning a region. -/
theorem alloc_zero_filled_cex : Alloc (NewArena 8) 0 = .error indexOutOfRangeMsg := rfl
